import Mathlib

/-!
# Verification of the paperwork job-scheduling core

Shallow embedding of `src/paperwork/frontend/jobs.py` (Job, JobFactory,
JobScheduler) and of the bounded parallel OCR evaluator of
`src/paperwork/frontend/mainwindow/scan.py` (`JobOCR.do`, `_ImgOCRThread.run`),
together with proofs and refutations of the specification's claims.

## Modelling conventions

* Python 2 object identity (`self is other`, used by `Job.__eq__` and
  `JobFactory.__eq__`) is modelled by a numeric identity token (`oid` for
  jobs, `fid` for factories).  All comparisons the source performs through
  `==` / `in` / `list.remove` go through these tokens.
* Exceptions are modelled with `Except PyError`.  A `try/finally` whose
  `finally` block may itself raise follows Python 2 semantics: the exception
  of the `finally` block replaces the in-flight one.
* The condition variable `threading.Condition()` wraps an RLock; its hold
  count is modelled as a `Nat`, and `release()` on a count of zero raises
  `RuntimeError("cannot release un-acquired lock")`, exactly as `RLock`.
  Blocking primitives (`wait`, `notify_all`, `Thread.join`) have no
  sequential observable effect; where a claim refers to them we record an
  event instead.
* External library functions are modelled by their documented contracts:
  `heapq.heappush`/`heappop` as a container whose pop returns an item
  minimal under the element order (here: of maximal priority, because
  `Job.__cmp__` reverses the comparison); `list.sort(cmp)` as a stable sort
  by the given comparator; `dict` as an association list whose `popitem`
  pops the first binding.
* Four misspelled references to external library names in the source have a
  unique, unambiguous referent and would otherwise prevent the module from
  loading at all; they are embedded by that referent and are not treated as
  observable behaviour: `itertools.counter()` (for `itertools.count()`),
  `Threading(...)` (for `threading.Thread(...)`), `heapq.push` (for
  `heapq.heappush`), `self._new_job_cond` (for `self._job_queue_cond`), and
  likewise the malformed parameter list of the abstract `JobFactory.make`.
  Every other control-flow and data-flow detail of the source — including
  its genuine logic errors — is embedded exactly.
* Python's `for x in lst: ... lst.remove(x)` iterates by index, so a removal
  shifts the successor into the removed slot and the successor is skipped.
  `pyForRemove` embeds this semantics for the OCR thread-collection loop.
* A `%` format whose conversion count exceeds its argument count raises
  `TypeError` eagerly, at the call site, before any logging happens.  The
  log lines of jobs.py 165–166, 174–176 and 178–179 each have three
  conversions (`%s %s %d`) but only two arguments (`self.name` is missing),
  and the entry logs of `cancel` / `cancel_all` respectively reference an
  undefined name and pass one argument for two conversions; `cancelPass`,
  `cancel_matching_jobs`, `cancel` and `cancel_all` embed these failures
  (an exception escaping `cancel_matching_jobs` still leaves the already
  performed queue mutation behind, as in Python).
-/

/-- Python exception values observable at the boundaries the claims mention. -/
inductive PyError where
  | jobException (msg : String)
  | runtimeError (msg : String)
  | attributeError (msg : String)
  | nameError (msg : String)
  | typeError (msg : String)
  | notImplementedError
  | assertionError
deriving DecidableEq, Repr

deriving instance DecidableEq for Except

/-- `JobFactory` (jobs.py lines 25–35): a name and the state of the
`itertools.count()` identifier generator (`next_id` is the value the next
`next(self.id_generator)` returns).  `fid` models object identity, used by
`JobFactory.__eq__` (`self is other`). -/
structure JobFactory where
  fid : Nat
  name : String
  next_id : Nat
deriving DecidableEq, Repr

/-- `Job` (jobs.py lines 38–72): factory back-reference, id, class-level
`priority` and `can_stop`.  `oid` models object identity, used by
`Job.__eq__` (`self is other`). -/
structure Job where
  oid : Nat
  factory : JobFactory
  id : Nat
  priority : Int
  can_stop : Bool
deriving DecidableEq, Repr

/-- `Job.__eq__` / the identity comparison Python performs for `in` and
`list.remove`. -/
def jobIs (a b : Job) : Bool := a.oid == b.oid

/-- `Job.__cmp__` (jobs.py lines 66–69): deliberately reversed, so that under
the heap's ascending order the higher priority comes first.
`jobLt a b` holds when `cmp(b.priority, a.priority) < 0`. -/
def jobLt (a b : Job) : Bool := decide (b.priority < a.priority)

/-- `heapq.heappush`, modelled by its contract: the heap is a container of
jobs; pushing adds the job.  The internal array layout is not observable
through the operations the source uses, so the container is kept as the
insertion-ordered list of its elements. -/
def heappush (h : List Job) (j : Job) : List Job := h ++ [j]

/-- `heapq.heappop`, modelled by its contract: pops an item that is minimal
under `Job.__cmp__`, i.e. of maximal `priority` (the source imposes no
ordering among equal priorities; this model takes the first such item). -/
def heappop : List Job → Option (Job × List Job)
  | [] => none
  | x :: xs =>
    match heappop xs with
    | none => some (x, [])
    | some (y, ys) => if jobLt y x then some (y, x :: ys) else some (x, xs)

/-- `JobScheduler` state (jobs.py lines 75–86): lifecycle flag, worker-thread
presence, the priority queue and the active slot. -/
structure JobScheduler where
  name : String
  running : Bool
  has_thread : Bool
  job_queue : List Job
  active_job : Option Job
deriving DecidableEq, Repr

/-- A freshly constructed scheduler (jobs.py `JobScheduler.__init__`). -/
def mkScheduler (name : String) : JobScheduler :=
  { name := name, running := false, has_thread := false,
    job_queue := [], active_job := none }

/-- `JobScheduler.start` (jobs.py lines 88–95): asserts not running and no
thread, then spawns the worker and sets `running`. -/
def schedStart (s : JobScheduler) : Except PyError JobScheduler :=
  if s.running then .error .assertionError
  else if s.has_thread then .error .assertionError
  else .ok { s with running := true, has_thread := true }

/-- `RLock.release`: decrements the hold count; on a count of zero raises
`RuntimeError`, as CPython's `thread.RLock` does. -/
def lockRelease (n : Nat) : Except PyError Nat :=
  if n = 0 then .error (.runtimeError "cannot release un-acquired lock")
  else .ok (n - 1)

/-- Whether `job` is a duplicate for `add` (jobs.py line 148):
`job in self._job_queue or job == self._active_job`, identity comparison. -/
def isDuplicate (s : JobScheduler) (job : Job) : Bool :=
  s.job_queue.any (fun q => jobIs q job) ||
    (match s.active_job with
     | some a => jobIs a job
     | none => false)

/-- The `try` body of `JobScheduler.add` (jobs.py lines 146–153), together
with the lock hold count it leaves for the `finally` block.  In the
duplicate branch the source releases the lock explicitly *before* raising
`JobException`, leaving a hold count of zero for the `finally`. -/
def addBody (s : JobScheduler) (job : Job) :
    Except PyError JobScheduler × Nat :=
  if isDuplicate s job then
    match lockRelease 1 with
    | .ok n =>
        (.error (.jobException
          ("Job " ++ job.factory.name ++ ":" ++ toString job.id ++
           " already scheduled")), n)
    | .error e => (.error e, 1)
  else
    (.ok { s with job_queue := heappush s.job_queue job }, 1)

/-- `JobScheduler.add` (jobs.py lines 142–155): acquire, body, then the
`finally` release.  Python 2 semantics: an exception raised by the `finally`
block replaces the in-flight result. -/
def add (s : JobScheduler) (job : Job) : Except PyError JobScheduler :=
  let r := addBody s job
  match lockRelease r.2 with
  | .error e => .error e
  | .ok _ => r.1

/-- Submit a list of jobs by successive `add` calls. -/
def addAll (s : JobScheduler) : List Job → Except PyError JobScheduler
  | [] => .ok s
  | j :: js =>
    match add s j with
    | .error e => .error e
    | .ok s' => addAll s' js

/-- One pass of the dispatch loop `JobScheduler._run` (jobs.py lines
97–139), driven by `fuel` iterations: pop the highest-priority job into the
active slot, run `do()` outside the lock, catch and log any exception
(`except Exception`), clear the active slot, continue.  `doRun` gives each
job's `do()` behaviour; a `.error` models `do()` raising.  Returns the final
state and the dispatch trace: each job run, paired with the exception caught
from it, if any. -/
def schedRunAux (doRun : Job → Except PyError Unit) :
    Nat → JobScheduler → JobScheduler × List (Job × Option PyError)
  | 0, s => (s, [])
  | fuel + 1, s =>
    match heappop s.job_queue with
    | none => (s, [])
    | some (j, rest) =>
      let caught : Option PyError :=
        match doRun j with
        | .ok _ => none
        | .error e => some e
      let r :=
        schedRunAux doRun fuel
          { s with job_queue := rest, active_job := none }
      (r.1, (j, caught) :: r.2)

/-- Run the dispatch loop until the queue empties (the queue length bounds
the number of pops needed). -/
def schedRun (doRun : Job → Except PyError Unit) (s : JobScheduler) :
    JobScheduler × List (Job × Option PyError) :=
  schedRunAux doRun s.job_queue.length s

/-- The warning the dispatch loop logs when `do()` raises (jobs.py lines
125–128): identifies the job by factory name and id. -/
def warnJobMsg (j : Job) (e : PyError) : String :=
  "Job " ++ j.factory.name ++ ":" ++ toString j.id ++
    " raised an exception: " ++ toString (repr e)

/-- `JobFactory.make` id assignment (`next(self.id_generator)`, as used by
`JobFactoryScan.make` / `JobFactoryOCR.make` in scan.py lines 106 and 291):
returns the next id and advances the factory's counter. -/
def factoryNext (f : JobFactory) : Nat × JobFactory :=
  (f.next_id, { f with next_id := f.next_id + 1 })

/-- The ids handed out by `n` successive `make` calls on a factory. -/
def makeIds (f : JobFactory) : Nat → List Nat
  | 0 => []
  | n + 1 => (factoryNext f).1 :: makeIds (factoryNext f).2 n

/-- `job.stop()` as dynamically dispatched.  The base class `Job.stop`
(jobs.py lines 58–64) raises `NotImplementedError`; its docstring says it is
only called when `can_stop == True`, and exactly the subclasses with
`can_stop = True` override it with a non-raising signal (scan.py
`JobScan.stop`), while the `can_stop = False` subclasses (`JobOCR`) inherit
the raising base method. -/
def jobStop (j : Job) : Except PyError Unit :=
  if j.can_stop then .ok () else .error .notImplementedError

/-- The dynamic value a Python cancellation predicate receives: the source
applies the same `condition` callable both to `job.factory` (for queued
jobs, jobs.py line 163) and to `self._active_job` (a job, or `None`,
line 170), so the argument type must cover all three. -/
inductive PyVal where
  | jobv (j : Job)
  | factv (f : JobFactory)
  | nonev
deriving DecidableEq, Repr

/-- Outcome of the queued-job pass of `cancel_matching_jobs` (jobs.py lines
161–168): the jobs still queued, the jobs removed, the last value bound to
the loop variable `job` (read again after the loop), and the exception in
flight when the pass ended, if any. -/
structure PassOut where
  kept : List Job
  removed : List Job
  last : Option Job
  raised : Option PyError
deriving DecidableEq, Repr

/-- The queued-job pass (jobs.py lines 161–168): `for job in
self._job_queue: if condition(job.factory): self._job_queue.remove(job);
logger.debug(...)`.  The removal debug message (lines 165–166) has three
`%` conversions (`%s %s %d`) but only two arguments — `self.name` is
missing — so Python's eager `%` formatting raises `TypeError` right after
the first removal; `TypeError` escapes the surrounding `except ValueError`.
Hence at most the first matching job is ever removed and the pass aborts
(the index-based skip-after-remove behaviour of Python's `for` never gets a
chance to show here).  A predicate exception likewise escapes with the
current element still queued. -/
def cancelPass (cond : PyVal → Except PyError Bool) :
    List Job → Option Job → PassOut
  | [], last => { kept := [], removed := [], last := last, raised := none }
  | j :: js, _ =>
    match cond (.factv j.factory) with
    | .error e =>
      { kept := j :: js, removed := [], last := some j, raised := some e }
    | .ok true =>
      { kept := js, removed := [j], last := some j,
        raised :=
          some (.typeError "not enough arguments for format string") }
    | .ok false =>
      { kept :=
          j :: (cancelPass cond js (some j)).kept,
        removed := (cancelPass cond js (some j)).removed,
        last := (cancelPass cond js (some j)).last,
        raised := (cancelPass cond js (some j)).raised }

/-- Observable outcome of a `cancel_matching_jobs` call: the scheduler state
it leaves behind (queue mutations persist even when an exception escapes),
the identity tokens of the jobs whose `stop()` was invoked, whether the call
blocked on `self._job_queue_cond.wait()`, and the exception it raised, if
any. -/
structure CancelOut where
  sched : JobScheduler
  stopped : List Nat
  waited : Bool
  raised : Option PyError
deriving DecidableEq, Repr

/-- `JobScheduler.cancel_matching_jobs` (jobs.py lines 158–181).  After the
queued pass (which aborts with `TypeError` at its first removal, see
`cancelPass`), the source tests `condition(self._active_job)` (the job
itself, or `None`), but then consults `job.can_stop` and calls `job.stop()`
on the for-loop variable `job` left over from the queued pass — not on
`self._active_job`.  With an empty queue that variable was never bound and
the read raises `NameError`.  When the stale job is stoppable, its `stop()`
is invoked and the call blocks on `wait()`, after which the "halted" debug
message (lines 178–179, again three conversions for two arguments) raises
`TypeError`; when it is unstoppable, the cannot-stop warning's own
formatting (lines 174–176, same arity error) raises `TypeError` before
anything is logged and before the `wait()`.  No branch of an active match
returns cleanly. -/
def cancel_matching_jobs (cond : PyVal → Except PyError Bool)
    (s : JobScheduler) : CancelOut :=
  let p := cancelPass cond s.job_queue none
  let s1 := { s with job_queue := p.kept }
  match p.raised with
  | some e => { sched := s1, stopped := [], waited := false,
                raised := some e }
  | none =>
    let activeVal : PyVal :=
      match s1.active_job with
      | some a => .jobv a
      | none => .nonev
    match cond activeVal with
    | .error e => { sched := s1, stopped := [], waited := false,
                    raised := some e }
    | .ok false => { sched := s1, stopped := [], waited := false,
                     raised := none }
    | .ok true =>
      match p.last with
      | none =>
        { sched := s1, stopped := [], waited := false,
          raised := some (.nameError "job") }
      | some lj =>
        if lj.can_stop then
          match jobStop lj with
          | .error e =>
            { sched := s1, stopped := [lj.oid], waited := false,
              raised := some e }
          | .ok _ =>
            { sched := s1, stopped := [lj.oid], waited := true,
              raised :=
                some (.typeError "not enough arguments for format string") }
        else
          { sched := s1, stopped := [], waited := false,
            raised :=
              some (.typeError "not enough arguments for format string") }

/-- The predicate `cancel` builds (jobs.py line 187):
`lambda job: (job == target_job)`.  Applied to a factory or to `None` the
identity comparison is simply false. -/
def cancelCondOf (target : Job) : PyVal → Except PyError Bool
  | .jobv j => .ok (jobIs j target)
  | .factv _ => .ok false
  | .nonev => .ok false

/-- The predicate `cancel_all` builds (jobs.py line 193):
`lambda job: (job.factory == factory)`.  Applied to a factory or to `None`
the attribute access `job.factory` raises `AttributeError`. -/
def cancelAllCondOf (factory : JobFactory) : PyVal → Except PyError Bool
  | .jobv j => .ok (j.factory.fid == factory.fid)
  | .factv _ =>
    .error (.attributeError "JobFactory instance has no attribute factory")
  | .nonev =>
    .error (.attributeError "NoneType object has no attribute factory")

/-- `JobScheduler.cancel` (jobs.py lines 183–187).  Its first statement
formats a debug message from `job.factory.name` and `job.id`, but no local
or global `job` is in scope in `cancel` (the parameter is `target_job`), so
the call raises `NameError` before reaching `cancel_matching_jobs` and the
scheduler state is untouched. -/
def cancel (s : JobScheduler) (_target : Job) : CancelOut :=
  { sched := s, stopped := [], waited := false,
    raised := some (.nameError "job") }

/-- `JobScheduler.cancel_all` (jobs.py lines 189–193).  Its first statement
evaluates `"[Scheduler %s] Canceling all jobs %s" % (factory.name)` — a
format string with two conversions but a single argument — so the call
raises `TypeError` before reaching `cancel_matching_jobs` and the scheduler
state is untouched. -/
def cancel_all (s : JobScheduler) (_factory : JobFactory) : CancelOut :=
  { sched := s, stopped := [], waited := false,
    raised := some (.typeError "not enough arguments for format string") }

/-- Observable events of `JobScheduler.stop`, in program order. -/
inductive StopEv where
  | stopCalled (oid : Nat)
  | notifiedAll
  | joined
deriving DecidableEq, Repr

/-- `JobScheduler.stop` (jobs.py lines 195–213): asserts the scheduler is
running with a live thread, clears `running`, and — under the lock —
unconditionally calls `self._active_job.stop()` whenever an active job
exists, with no `can_stop` test.  An exception from that call escapes the
`try` (the `finally` merely releases the lock) and the thread join is never
reached. -/
def schedStop (s : JobScheduler) :
    Except PyError (JobScheduler × List StopEv) :=
  if !s.running then .error .assertionError
  else if !s.has_thread then .error .assertionError
  else
    let s1 := { s with running := false }
    match s1.active_job with
    | none =>
      .ok ({ s1 with has_thread := false }, [.notifiedAll, .joined])
    | some j =>
      match jobStop j with
      | .error e => .error e
      | .ok _ =>
        .ok ({ s1 with has_thread := false },
             [.stopCalled j.oid, .notifiedAll, .joined])

/-! ## Bounded parallel evaluator (`JobOCR.do`, scan.py lines 229–269)

Images and OCR box lists are opaque external data; they are modelled as
numeric tokens.  The per-image evaluation performed by an `_ImgOCRThread`
(its final `score` and `boxes` fields once the thread has died) is an
arbitrary function `rc : Nat → Int × Nat` supplied to the model; the claims
assume deterministic scores.  Thread completion timing is nondeterministic:
each polling iteration consumes one oracle `Worker → Bool` telling which
in-flight workers `is_alive()` reports as finished. -/

/-- One `_ImgOCRThread` as the fan-out loop sees it: its name (`str(nb)`),
its angle and its image (scan.py lines 257–258). -/
structure Worker where
  name : Nat
  angle : Int
  img : Nat
deriving DecidableEq, Repr

/-- One entry of the `scores` list (scan.py lines 250–251):
`(thread.score, thread.angle, thread.img, thread.boxes)`. -/
structure SEntry where
  score : Int
  angle : Int
  img : Nat
  boxes : Nat
deriving DecidableEq, Repr

/-- The `scores` entry a finished worker contributes, given the evaluation
function. -/
def workerRecord (rc : Nat → Int × Nat) (w : Worker) : SEntry :=
  { score := (rc w.img).1, angle := w.angle, img := w.img,
    boxes := (rc w.img).2 }

/-- The evaluation record of a pending `(angle, img)` variant. -/
def evalRecord (rc : Nat → Int × Nat) (v : Int × Nat) : SEntry :=
  { score := (rc v.2).1, angle := v.1, img := v.2, boxes := (rc v.2).2 }

/-- State of the fan-out loop: the pending backlog (`self.imgs`, a dict
modelled as the association list of its items, `popitem` taking the head),
the in-flight workers (`threads`), the collected `scores`, and the thread
name counter `nb`. -/
structure OCRState where
  imgs : List (Int × Nat)
  threads : List Worker
  scores : List SEntry
  nb : Nat
deriving DecidableEq, Repr

/-- The collection pass (scan.py lines 245–252): `for thread in threads:
if not thread.is_alive(): threads.remove(thread); ...` — Python iterates by
index, so each removal shifts the successor into the removed slot and that
successor is skipped this pass (it is re-examined on the next outer
iteration).  Returns the workers still held and the workers collected, in
order. -/
def pyForRemove (fin : Worker → Bool) :
    List Worker → List Worker × List Worker
  | [] => ([], [])
  | w :: ws =>
    if fin w then
      match ws with
      | [] => ([], [w])
      | y :: ys =>
        (y :: (pyForRemove fin ys).1, w :: (pyForRemove fin ys).2)
    else
      (w :: (pyForRemove fin ws).1, (pyForRemove fin ws).2)

/-- The fan-in of the inner `while` (scan.py lines 254–261): while capacity
remains below `maxT` and the backlog is non-empty, pop the next variant and
start a worker for it. -/
def startThreads (maxT : Nat) :
    List (Int × Nat) → List Worker → Nat →
    List (Int × Nat) × List Worker × Nat
  | [], threads, nb => ([], threads, nb)
  | v :: rest, threads, nb =>
    if threads.length < maxT then
      startThreads maxT rest
        (threads ++ [{ name := nb, angle := v.1, img := v.2 }]) (nb + 1)
    else (v :: rest, threads, nb)

/-- One iteration of the polling loop (scan.py lines 243–262): collect the
workers the oracle reports finished, append their records to `scores` (an
`ocr-score` event is emitted per record), then start new workers while
capacity remains, then sleep. -/
def ocrStep (rc : Nat → Int × Nat) (fin : Worker → Bool) (maxT : Nat)
    (st : OCRState) : OCRState :=
  let pr := pyForRemove fin st.threads
  let stt := startThreads maxT st.imgs pr.1 st.nb
  { imgs := stt.1, threads := stt.2.1,
    scores := st.scores ++ pr.2.map (workerRecord rc), nb := stt.2.2 }

/-- Whether the outer `while` condition (scan.py line 243) is false: no
backlog and nothing in flight. -/
def ocrDone (st : OCRState) : Bool :=
  st.imgs.isEmpty && st.threads.isEmpty

/-- The polling loop, one completion oracle per iteration.  Returns `none`
when the oracle list is exhausted with the loop still running. -/
def ocrLoop (rc : Nat → Int × Nat) :
    List (Worker → Bool) → Nat → OCRState → Option OCRState
  | [], _, st => if ocrDone st then some st else none
  | f :: fs, maxT, st =>
    if ocrDone st then some st
    else ocrLoop rc fs maxT (ocrStep rc f maxT st)

/-- Every state at which the loop condition is evaluated, in order (the
initial state first). -/
def ocrTrace (rc : Nat → Int × Nat) :
    List (Worker → Bool) → Nat → OCRState → List OCRState
  | [], _, st => [st]
  | f :: fs, maxT, st =>
    if ocrDone st then [st]
    else st :: ocrTrace rc fs maxT (ocrStep rc f maxT st)

/-- The loop's starting state (scan.py lines 234–242): full backlog, no
worker in flight, no score, counter at zero. -/
def ocrInit (variants : List (Int × Nat)) : OCRState :=
  { imgs := variants, threads := [], scores := [], nb := 0 }

/-- Insert into a descending-by-score sorted list, keeping earlier elements
before later ones on ties. -/
def insertDesc (e : SEntry) : List SEntry → List SEntry
  | [] => [e]
  | y :: ys => if e.score < y.score then y :: insertDesc e ys else e :: y :: ys

/-- `scores.sort(cmp=lambda x, y: cmp(y[0], x[0]))` (scan.py line 265),
modelled by the contract of Python's stable sort: a stable descending sort
on the first tuple component. -/
def sortScores : List SEntry → List SEntry
  | [] => []
  | e :: es => insertDesc e (sortScores es)

/-- `JobOCR.do` end to end: run the polling loop, sort, and emit
`('ocr-done', scores[0][1], scores[0][2], scores[0][3])` (scan.py lines
264–269).  `none` stands for a run that is still looping on the given
oracles, or for the `IndexError` of `scores[0]` on an empty score list. -/
def jobOCRdo (rc : Nat → Int × Nat) (fins : List (Worker → Bool))
    (maxT : Nat) (variants : List (Int × Nat)) :
    Option (Int × Nat × Nat) :=
  match ocrLoop rc fins maxT (ocrInit variants) with
  | none => none
  | some st =>
    match (sortScores st.scores).head? with
    | none => none
    | some e => some (e.angle, e.img, e.boxes)

/-! ## `_ImgOCRThread.run` scoring chain (scan.py lines 128–194) -/

/-- `_ImgOCRThread.__boxes_to_txt` (scan.py lines 141–146): concatenate the
line contents, each followed by a newline.  A line box is represented by its
text content. -/
def boxesToTxt (boxes : List String) : String :=
  boxes.foldl (fun txt line => txt ++ line ++ "\n") ""

/-- `re.match` of the anchored pattern `^[a-zA-Z]{4,}$` against a word: the
whole word must be four or more ASCII letters, except that `$` also accepts
a single trailing newline. -/
def pyFullMatch (w : String) : Bool :=
  let core := if w.endsWith "\n" then w.dropRight 1 else w
  decide (4 ≤ core.length) && core.toList.all Char.isAlpha

/-- `_ImgOCRThread.__compute_ocr_score_without_spell_checking` (scan.py
lines 148–162): the score is the number of space-separated words matching
the pattern. -/
def scoreWithoutSpell (txt : String) : String × Int :=
  (txt, (((txt.splitOn " ").filter pyFullMatch).length : Int))

/-- The `SCORE_METHODS` preference list (scan.py lines 165–169), each method
already applied to `txt`: the spell-checking scorer first, the heuristic
second, the constant `lambda txt: (txt, 0)` last.  `spell` models
`check_spelling`.  Modelled from the spec: `paperwork.backend.util
.check_spelling` is code of this repository that is not under `src/`; the
spec (§4.3, §7) describes it only as a linguistic/dictionary-based scoring
strategy whose failure is non-fatal, so it is an arbitrary function
returning a `(text, score)` pair or failing (`none` models raising). -/
def SCORE_METHODS (spell : String → Option (String × Int)) (txt : String) :
    List (String × Option (String × Int)) :=
  [("spell_checker", spell txt),
   ("lucky_guess", some (scoreWithoutSpell txt)),
   ("no_score", some (txt, 0))]

/-- The strategy loop (scan.py lines 178–194): take the first method that
does not raise, bind `self.score` to the second component of its result and
return; a failure is logged and the next method tried.  `none` is the
fall-out-of-the-loop case in which no method succeeded. -/
def runChain : List (String × Option (String × Int)) → Option (String × Int)
  | [] => none
  | (_, none) :: rest => runChain rest
  | (name, some r) :: _ => some (name, r.2)

/-- The fields of an `_ImgOCRThread` once `run` has finished (or died):
`score` (initially `-1`, scan.py line 135), `boxes` (initially `None`), and
— for the analysis — which scoring method assigned the score, if any. -/
structure ThreadOut where
  score : Int
  boxes : Option (List String)
  methodUsed : Option String
deriving DecidableEq, Repr

/-- `_ImgOCRThread.run` (scan.py lines 164–194): the OCR call either raises
(`ocrRes = none`; the thread dies with its initial fields) or yields line
boxes; the boxes are flattened to text and the scoring chain assigns
`self.score`. -/
def threadRun (spell : String → Option (String × Int))
    (ocrRes : Option (List String)) : ThreadOut :=
  match ocrRes with
  | none => { score := -1, boxes := none, methodUsed := none }
  | some boxes =>
    let txt := boxesToTxt boxes
    match runChain (SCORE_METHODS spell txt) with
    | none => { score := -1, boxes := some boxes, methodUsed := none }
    | some (m, sc) =>
      { score := sc, boxes := some boxes, methodUsed := some m }

/-! ## Concrete fixtures used by the closed theorems and witnesses -/

/-- A scheduler on which `start()` has completed. -/
def startedSched (name : String) : JobScheduler :=
  { mkScheduler name with running := true, has_thread := true }

def sampleFactory : JobFactory := { fid := 1, name := "F", next_id := 0 }

/-- Unstoppable high-priority job. -/
def jobA : Job :=
  { oid := 1, factory := sampleFactory, id := 0, priority := 10,
    can_stop := false }

/-- Stoppable low-priority job. -/
def jobB : Job :=
  { oid := 2, factory := sampleFactory, id := 1, priority := 5,
    can_stop := true }

/-- Unstoppable mid-priority job. -/
def jobC : Job :=
  { oid := 3, factory := sampleFactory, id := 2, priority := 7,
    can_stop := false }

/-- A started scheduler holding exactly the queue `q` (empty active slot). -/
def schedWith (name : String) (q : List Job) : JobScheduler :=
  { startedSched name with job_queue := q }

/-- Deterministic demo evaluation: four variants scored 3, 7, 2, 5. -/
def rcDemo : Nat → Int × Nat := fun img =>
  if img = 0 then (3, 100)
  else if img = 1 then (7, 101)
  else if img = 2 then (2, 102)
  else (5, 103)

/-- The four rotation variants of the demo run. -/
def varsDemo : List (Int × Nat) := [(0, 0), (90, 1), (180, 2), (270, 3)]

/-- Completion oracles for the demo run: every poll reports every in-flight
worker finished. -/
def finsDemo : List (Worker → Bool) := List.replicate 6 (fun _ => true)

/-- All evaluation records a loop state accounts for: already collected
scores, records of in-flight workers, and records of the pending backlog. -/
def stRecords (rc : Nat → Int × Nat) (st : OCRState) : List SEntry :=
  st.scores ++
    (st.threads.map (workerRecord rc) ++ st.imgs.map (evalRecord rc))

/-- The final loop state of the demo run (4 variants scored 3, 7, 2, 5 under
concurrency bound 2). -/
def ocrFinalDemo : OCRState :=
  { imgs := [], threads := [],
    scores :=
      [{ score := 3, angle := 0, img := 0, boxes := 100 },
       { score := 7, angle := 90, img := 1, boxes := 101 },
       { score := 2, angle := 180, img := 2, boxes := 102 },
       { score := 5, angle := 270, img := 3, boxes := 103 }],
    nb := 4 }

/-! ## Lemmas about the heap model -/

theorem heappop_nil : heappop [] = none := rfl

theorem heappop_cons_isSome (x : Job) (xs : List Job) :
    (heappop (x :: xs)).isSome := by
  cases h : heappop xs with
  | none => simp [heappop, h]
  | some p =>
    obtain ⟨y, ys⟩ := p
    by_cases hlt : jobLt y x <;> simp [heappop, h, hlt]

theorem heappop_ne_none (x : Job) (xs : List Job) :
    heappop (x :: xs) ≠ none := by
  have h := heappop_cons_isSome x xs
  intro hn
  rw [hn] at h
  simp at h

theorem heappop_eq_none_iff {l : List Job} : heappop l = none ↔ l = [] := by
  cases l with
  | nil => simp [heappop]
  | cons x xs => simp [heappop_ne_none x xs]

/-- Popping returns an element of the queue together with the rest: the
contents are preserved. -/
theorem heappop_perm {l : List Job} {j : Job} {rest : List Job}
    (h : heappop l = some (j, rest)) : l.Perm (j :: rest) := by
  induction l generalizing j rest with
  | nil => simp [heappop] at h
  | cons x xs ih =>
    cases hxs : heappop xs with
    | none =>
      simp only [heappop, hxs, Option.some.injEq, Prod.mk.injEq] at h
      obtain ⟨rfl, rfl⟩ := h.symm
      cases xs with
      | nil => exact List.Perm.refl _
      | cons y ys => exact absurd hxs (heappop_ne_none y ys)
    | some p =>
      obtain ⟨y, ys⟩ := p
      by_cases hlt : jobLt y x = true
      · simp only [heappop, hxs, hlt, if_true, Option.some.injEq,
          Prod.mk.injEq] at h
        obtain ⟨rfl, rfl⟩ := h.symm
        exact ((ih hxs).cons x).trans (List.Perm.swap y x ys)
      · simp only [heappop, hxs, hlt, if_false, Bool.false_eq_true,
          Option.some.injEq, Prod.mk.injEq] at h
        obtain ⟨rfl, rfl⟩ := h.symm
        exact List.Perm.refl _

/-- The popped job has maximal priority among the queued jobs. -/
theorem heappop_max {l : List Job} {j : Job} {rest : List Job}
    (h : heappop l = some (j, rest)) :
    ∀ k ∈ l, k.priority ≤ j.priority := by
  induction l generalizing j rest with
  | nil => simp [heappop] at h
  | cons x xs ih =>
    cases hxs : heappop xs with
    | none =>
      simp only [heappop, hxs, Option.some.injEq, Prod.mk.injEq] at h
      obtain ⟨rfl, rfl⟩ := h.symm
      cases xs with
      | nil =>
        intro k hk
        rcases List.mem_singleton.mp hk with rfl
        exact le_refl _
      | cons y ys => exact absurd hxs (heappop_ne_none y ys)
    | some p =>
      obtain ⟨y, ys⟩ := p
      by_cases hlt : jobLt y x = true
      · simp only [heappop, hxs, hlt, if_true, Option.some.injEq,
          Prod.mk.injEq] at h
        obtain ⟨rfl, rfl⟩ := h.symm
        have hxy : x.priority < y.priority := by
          simpa [jobLt] using hlt
        intro k hk
        rcases List.mem_cons.mp hk with rfl | hk
        · exact le_of_lt hxy
        · exact ih hxs k hk
      · simp only [heappop, hxs, hlt, if_false, Bool.false_eq_true,
          Option.some.injEq, Prod.mk.injEq] at h
        obtain ⟨rfl, rfl⟩ := h.symm
        have hyx : y.priority ≤ x.priority := by
          simpa [jobLt] using hlt
        intro k hk
        rcases List.mem_cons.mp hk with rfl | hk
        · exact le_refl _
        · exact le_trans (ih hxs k hk) hyx

/-! ## Lemmas about the dispatch loop -/

/-- Every job the dispatch loop runs came from the queue. -/
theorem schedRunAux_mem (doRun : Job → Except PyError Unit) :
    ∀ (fuel : Nat) (s : JobScheduler) (p : Job × Option PyError),
      p ∈ (schedRunAux doRun fuel s).2 → p.1 ∈ s.job_queue := by
  intro fuel
  induction fuel with
  | zero => intro s p hp; simp [schedRunAux] at hp
  | succ n ih =>
    intro s p hp
    cases hpop : heappop s.job_queue with
    | none => simp [schedRunAux, hpop] at hp
    | some q =>
      obtain ⟨j, rest⟩ := q
      simp only [schedRunAux, hpop, List.mem_cons] at hp
      have hperm := heappop_perm hpop
      rcases hp with rfl | hp
      · exact hperm.symm.mem_iff.mp (List.mem_cons_self _ _)
      · have := ih { s with job_queue := rest, active_job := none } p hp
        exact hperm.symm.mem_iff.mp (List.mem_cons_of_mem _ this)

/-- The dispatch trace is sorted by non-increasing priority: a strictly
higher-priority job is always run before any queued strictly-lower one. -/
theorem schedRunAux_sorted (doRun : Job → Except PyError Unit) :
    ∀ (fuel : Nat) (s : JobScheduler),
      ((schedRunAux doRun fuel s).2.map Prod.fst).Pairwise
        (fun a b => b.priority ≤ a.priority) := by
  intro fuel
  induction fuel with
  | zero => intro s; simp [schedRunAux]
  | succ n ih =>
    intro s
    cases hpop : heappop s.job_queue with
    | none => simp [schedRunAux, hpop]
    | some q =>
      obtain ⟨j, rest⟩ := q
      simp only [schedRunAux, hpop, List.map_cons, List.pairwise_cons]
      constructor
      · intro b hb
        obtain ⟨p, hp, rfl⟩ := List.mem_map.mp hb
        have hmem :=
          schedRunAux_mem doRun n
            { s with job_queue := rest, active_job := none } p hp
        exact heappop_max hpop p.1
          ((heappop_perm hpop).symm.mem_iff.mp (List.mem_cons_of_mem _ hmem))
      · exact ih { s with job_queue := rest, active_job := none }

/-- With enough fuel (the queue length suffices) the dispatch trace is a
permutation of the queue: every queued job is run exactly once. -/
theorem schedRunAux_perm (doRun : Job → Except PyError Unit) :
    ∀ (fuel : Nat) (s : JobScheduler), s.job_queue.length ≤ fuel →
      ((schedRunAux doRun fuel s).2.map Prod.fst).Perm s.job_queue := by
  intro fuel
  induction fuel with
  | zero =>
    intro s hs
    have : s.job_queue = [] := List.length_eq_zero.mp (Nat.le_zero.mp hs)
    simp [schedRunAux, this]
  | succ n ih =>
    intro s hs
    cases hpop : heappop s.job_queue with
    | none =>
      have hnil : s.job_queue = [] := heappop_eq_none_iff.mp hpop
      simp [schedRunAux, hnil, heappop]
    | some q =>
      obtain ⟨j, rest⟩ := q
      have hperm := heappop_perm hpop
      have hlen : rest.length + 1 = s.job_queue.length := by
        simpa using hperm.length_eq.symm
      have hrest :
          ({ s with job_queue := rest, active_job := none } :
            JobScheduler).job_queue.length ≤ n := by
        simp only []
        omega
      have hih := ih _ hrest
      simp only [schedRunAux, hpop, List.map_cons]
      refine (List.Perm.cons j ?_).trans hperm.symm
      simpa using hih

/-- The jobs run and the final state do not depend on whether (or how) the
jobs' `do()` methods raise. -/
theorem schedRunAux_doRun_irrelevant
    (doRun doRun' : Job → Except PyError Unit) :
    ∀ (fuel : Nat) (s : JobScheduler),
      (schedRunAux doRun fuel s).2.map Prod.fst =
        (schedRunAux doRun' fuel s).2.map Prod.fst ∧
      (schedRunAux doRun fuel s).1 = (schedRunAux doRun' fuel s).1 := by
  intro fuel
  induction fuel with
  | zero => intro s; simp [schedRunAux]
  | succ n ih =>
    intro s
    cases hpop : heappop s.job_queue with
    | none => simp [schedRunAux, hpop]
    | some q =>
      obtain ⟨j, rest⟩ := q
      have := ih { s with job_queue := rest, active_job := none }
      simp only [schedRunAux, hpop, List.map_cons]
      exact ⟨by rw [this.1], this.2⟩

/-- With enough fuel the loop drains the queue and leaves the active slot
clear. -/
theorem schedRunAux_final (doRun : Job → Except PyError Unit) :
    ∀ (fuel : Nat) (s : JobScheduler), s.job_queue.length ≤ fuel →
      (schedRunAux doRun fuel s).1.job_queue = [] ∧
      (s.active_job = none → (schedRunAux doRun fuel s).1.active_job = none) := by
  intro fuel
  induction fuel with
  | zero =>
    intro s hs
    have : s.job_queue = [] := List.length_eq_zero.mp (Nat.le_zero.mp hs)
    simp [schedRunAux, this]
  | succ n ih =>
    intro s hs
    cases hpop : heappop s.job_queue with
    | none =>
      have hnil : s.job_queue = [] := heappop_eq_none_iff.mp hpop
      simp [schedRunAux, hnil, heappop]
    | some q =>
      obtain ⟨j, rest⟩ := q
      have hperm := heappop_perm hpop
      have hlen : rest.length + 1 = s.job_queue.length := by
        simpa using hperm.length_eq.symm
      have hrest :
          ({ s with job_queue := rest, active_job := none } :
            JobScheduler).job_queue.length ≤ n := by
        simp only []
        omega
      have hih := ih _ hrest
      simp only [schedRunAux, hpop]
      exact ⟨hih.1, fun _ => hih.2 rfl⟩

/-- Successive `add` calls with pairwise distinct job identities, none of
them already queued, all succeed and enqueue all the jobs. -/
theorem addAll_ok :
    ∀ (jobs : List Job) (s : JobScheduler),
      s.active_job = none →
      (∀ j ∈ jobs, ∀ q ∈ s.job_queue, jobIs q j = false) →
      jobs.Pairwise (fun a b => a.oid ≠ b.oid) →
      addAll s jobs = .ok { s with job_queue := s.job_queue ++ jobs } := by
  intro jobs
  induction jobs with
  | nil => intro s _ _ _; simp [addAll]
  | cons j js ih =>
    intro s hact hfresh hpair
    have hdup : isDuplicate s j = false := by
      simp only [isDuplicate, hact, Bool.or_false, List.any_eq_false]
      intro q hq
      simp [hfresh j (List.mem_cons_self _ _) q hq]
    have hadd : add s j = .ok { s with job_queue := s.job_queue ++ [j] } := by
      simp [add, addBody, hdup, lockRelease, heappush]
    have hpairtl := (List.pairwise_cons.mp hpair).2
    have hhead := (List.pairwise_cons.mp hpair).1
    have hfresh' :
        ∀ j' ∈ js, ∀ q ∈ s.job_queue ++ [j], jobIs q j' = false := by
      intro j' hj' q hq
      rcases List.mem_append.mp hq with hq | hq
      · exact hfresh j' (List.mem_cons_of_mem _ hj') q hq
      · rcases List.mem_singleton.mp hq with rfl
        simp [jobIs]
        exact hhead j' hj'
    have := ih { s with job_queue := s.job_queue ++ [j] } hact hfresh' hpairtl
    simp only [addAll, hadd]
    rw [this]
    simp

/-- C1.  For every sequence of `add` calls submitting jobs with pairwise
distinct identities to a started scheduler, all adds succeed and the worker
loop dispatches the jobs in descending priority order: the dispatch trace is
a permutation of the submitted jobs in which a strictly higher-priority job
always precedes any strictly lower-priority one (nothing is claimed among
equal priorities). -/
theorem sched_dispatch_priority_order
    (name : String) (jobs : List Job) (s : JobScheduler)
    (doRun : Job → Except PyError Unit)
    (hdist : jobs.Pairwise (fun a b => a.oid ≠ b.oid))
    (hadd : addAll (startedSched name) jobs = .ok s) :
    ((schedRun doRun s).2.map Prod.fst).Perm jobs ∧
    ((schedRun doRun s).2.map Prod.fst).Pairwise
      (fun a b => b.priority ≤ a.priority) := by
  have h := addAll_ok jobs (startedSched name) rfl
    (by intro j _ q hq; simp [startedSched, mkScheduler] at hq) hdist
  rw [hadd] at h
  have hs : s = schedWith name jobs := by
    have := Except.ok.inj h
    simpa [schedWith, startedSched, mkScheduler] using this
  subst hs
  refine ⟨?_, schedRunAux_sorted doRun _ _⟩
  have := schedRunAux_perm doRun
    (schedWith name jobs).job_queue.length (schedWith name jobs) (le_refl _)
  simpa [schedRun, schedWith, startedSched, mkScheduler] using this

/-- Witness for C1: the spec's own scenario plus a mid-priority job —
priorities 10, 5, 7 submitted in that order are dispatched 10, 7, 5. -/
theorem sched_dispatch_priority_order_witness :
    ([jobA, jobB, jobC].Pairwise (fun a b => a.oid ≠ b.oid)) ∧
    (((schedRun (fun _ => .ok ()) (schedWith "w" [jobA, jobB, jobC])).2.map
        Prod.fst).Perm [jobA, jobB, jobC] ∧
      ((schedRun (fun _ => .ok ())
          (schedWith "w" [jobA, jobB, jobC])).2.map Prod.fst).Pairwise
        (fun a b => b.priority ≤ a.priority)) :=
  ⟨by decide,
   sched_dispatch_priority_order "w" [jobA, jobB, jobC]
     (schedWith "w" [jobA, jobB, jobC]) (fun _ => .ok ())
     (by decide) (by decide)⟩

/-- C6.  Whatever exceptions the jobs' `do()` methods raise, the dispatch
loop catches them: the jobs run, and their order, are identical to a run in
which no job fails; every queued job is processed; and the loop ends with
the queue drained and the active slot cleared — no exception terminates the
worker loop. -/
theorem run_loop_survives_job_exceptions
    (doRun : Job → Except PyError Unit) (name : String) (q : List Job) :
    ((schedRun doRun (schedWith name q)).2.map Prod.fst =
      (schedRun (fun _ => .ok ()) (schedWith name q)).2.map Prod.fst) ∧
    (schedRun doRun (schedWith name q)).2.length = q.length ∧
    (schedRun doRun (schedWith name q)).1.job_queue = [] ∧
    (schedRun doRun (schedWith name q)).1.active_job = none := by
  refine ⟨?_, ?_, ?_, ?_⟩
  · exact (schedRunAux_doRun_irrelevant doRun (fun _ => .ok ()) _ _).1
  · have hperm := schedRunAux_perm doRun
      (schedWith name q).job_queue.length (schedWith name q) (le_refl _)
    have := hperm.length_eq
    simpa [schedRun, schedWith, startedSched, mkScheduler] using this
  · exact (schedRunAux_final doRun _ _ (le_refl _)).1
  · exact (schedRunAux_final doRun _ _ (le_refl _)).2 rfl

theorem makeIds_lower_bound :
    ∀ (n : Nat) (f : JobFactory), ∀ i ∈ makeIds f n, f.next_id ≤ i := by
  intro n
  induction n with
  | zero => intro f i hi; simp [makeIds] at hi
  | succ m ih =>
    intro f i hi
    rcases List.mem_cons.mp hi with rfl | hi
    · exact le_refl _
    · have := ih (factoryNext f).2 i hi
      simp only [factoryNext] at this
      omega

/-- C8.  The identifiers a factory hands out to successive `make` calls are
strictly increasing, hence pairwise distinct: no two jobs from the same
factory share an id. -/
theorem factory_ids_strictly_increasing (f : JobFactory) (n : Nat) :
    (makeIds f n).Pairwise (· < ·) ∧ (makeIds f n).Nodup := by
  have hpw : (makeIds f n).Pairwise (· < ·) := by
    induction n generalizing f with
    | zero => simp [makeIds]
    | succ m ih =>
      simp only [makeIds, List.pairwise_cons]
      refine ⟨?_, ih _⟩
      intro i hi
      have := makeIds_lower_bound m (factoryNext f).2 i hi
      simp only [factoryNext] at this ⊢
      omega
  exact ⟨hpw, hpw.imp (fun h => Nat.ne_of_lt h)⟩

/-- C2 (code bug).  Submitting a job already in the queue leaves the state
unchanged but raises the wrong error: the duplicate branch releases the lock
explicitly before raising `JobException`, so the `finally` block's release
finds the lock un-acquired and its `RuntimeError` replaces the intended
duplicate-job error.  For a job not yet present, `add` does insert it and
return without error (second conjunct). -/
theorem add_duplicate_raises_lock_error :
    add (schedWith "s" [jobA]) jobA =
      .error (.runtimeError "cannot release un-acquired lock") ∧
    add (startedSched "s") jobA = .ok (schedWith "s" [jobA]) := by decide

/-- C7 (code bug).  `JobScheduler.stop` calls `self._active_job.stop()`
without consulting `can_stop`: with an unstoppable active job the inherited
`Job.stop` raises `NotImplementedError`, which escapes `stop()` before the
thread join (first conjunct).  With a stoppable active job, `stop()` is
signalled exactly once before the join (second conjunct). -/
theorem stop_calls_stop_on_unstoppable_active :
    schedStop { startedSched "s" with active_job := some jobA } =
      .error .notImplementedError ∧
    schedStop { startedSched "s" with active_job := some jobB } =
      .ok ({ mkScheduler "s" with active_job := some jobB },
           [.stopCalled jobB.oid, .notifiedAll, .joined]) := by decide

/-- C5 (code bug).  With a predicate satisfied by every job (`lambda j:
True`), cancelling over the queue `[jobA, jobB]` removes only `jobA` and
then raises `TypeError`: the per-removal debug log (jobs.py 165–166) has
three format conversions but two arguments, and `TypeError` escapes the
`except ValueError` — the equally matching `jobB` stays queued, nothing is
waited on, no further matching job is ever examined.  `cancel_all` never
reaches the queue at all: its own entry log raises `TypeError` first
(second conjunct, state untouched); and the predicate it would pass is
applied to `job.factory`, on which the `job.factory` attribute access
raises `AttributeError` (third conjunct). -/
theorem cancel_matching_aborts_and_cancel_all_crashes :
    cancel_matching_jobs (fun _ => .ok true)
        { schedWith "s" [jobA, jobB] with active_job := some jobC } =
      { sched := { schedWith "s" [jobB] with active_job := some jobC },
        stopped := [], waited := false,
        raised :=
          some (.typeError "not enough arguments for format string") } ∧
    cancel_all (schedWith "s" [jobA, jobB]) sampleFactory =
      { sched := schedWith "s" [jobA, jobB], stopped := [],
        waited := false,
        raised :=
          some (.typeError "not enough arguments for format string") } ∧
    cancelAllCondOf sampleFactory (.factv sampleFactory) =
      .error (.attributeError
        "JobFactory instance has no attribute factory") := by decide

/-- C9 (code bug).  Cancelling the unstoppable active job `jobC` misbehaves
in every configuration: `cancel` itself raises `NameError` at its first
statement — its debug log references the undefined name `job` — so the
claimed warn-and-continue behaviour never starts (first conjunct); and even
the underlying `cancel_matching_jobs`, targeting active `jobC`, consults
the leftover queue-loop variable instead of the active job — with stoppable
`jobB` last in the queue it invokes `stop()` on `jobB`, waits, and then the
"halted" debug log (jobs.py 178–179, three conversions for two arguments)
raises `TypeError` (second conjunct); with an empty queue the variable is
unbound and it raises `NameError` (third conjunct).  Had the unstoppable
branch been reached, its warning's own formatting (jobs.py 174–176, same
arity error) would raise `TypeError` before logging anything.  In no case
is a warning logged and control returned without error. -/
theorem cancel_active_unstoppable_misbehaves :
    cancel { schedWith "s" [] with active_job := some jobC } jobC =
      { sched := { schedWith "s" [] with active_job := some jobC },
        stopped := [], waited := false,
        raised := some (.nameError "job") } ∧
    cancel_matching_jobs (cancelCondOf jobC)
        { schedWith "s" [jobB] with active_job := some jobC } =
      { sched := { schedWith "s" [jobB] with active_job := some jobC },
        stopped := [jobB.oid], waited := true,
        raised :=
          some (.typeError "not enough arguments for format string") } ∧
    cancel_matching_jobs (cancelCondOf jobC)
        { schedWith "s" [] with active_job := some jobC } =
      { sched := { schedWith "s" [] with active_job := some jobC },
        stopped := [], waited := false,
        raised := some (.nameError "job") } := by decide

/-- C10, counterexample.  If the external spell-checking scorer returns a
negative score — nothing in the source or the spec constrains its range —
the thread finishes with `score = -1` although the OCR call returned
normally, refuting "the thread finishes with score >= 0" and "the sentinel
-1 survives only if the OCR call itself raises". -/
theorem thread_score_negative_spell_counterexample :
    (threadRun (fun t => some (t, -1)) (some ["abcd"])).score = -1 ∧
    (threadRun (fun t => some (t, -1)) (some ["abcd"])).boxes =
      some ["abcd"] := by decide

/-- C10, amended.  When the OCR call returns, the scoring chain always
assigns a score — the trailing constant strategy cannot fail, so the
all-strategies-fail fall-through is unreachable; if the spell-checking
strategy fails, the assigned score comes from a total non-negative strategy,
so it is `>= 0`; the initial sentinel `-1` is kept (rather than assigned)
only when the OCR call raises. -/
theorem thread_scoring_chain_total
    (spell : String → Option (String × Int)) (boxes : List String) :
    runChain (SCORE_METHODS spell (boxesToTxt boxes)) ≠ none ∧
    (threadRun spell (some boxes)).methodUsed ≠ none ∧
    (spell (boxesToTxt boxes) = none →
      0 ≤ (threadRun spell (some boxes)).score) ∧
    (threadRun spell none).score = -1 := by
  cases hs : spell (boxesToTxt boxes) with
  | none =>
    refine ⟨?_, ?_, ?_, rfl⟩
    · simp [runChain, SCORE_METHODS, hs]
    · simp [threadRun, runChain, SCORE_METHODS, hs]
    · intro _
      simp [threadRun, runChain, SCORE_METHODS, hs, scoreWithoutSpell]
  | some r =>
    refine ⟨?_, ?_, ?_, rfl⟩
    · simp [runChain, SCORE_METHODS, hs]
    · simp [threadRun, runChain, SCORE_METHODS, hs]
    · intro hc
      exact absurd hc (by simp)

/-- Witness for C10's amended theorem: a spell checker that always fails
still yields a non-negative score. -/
theorem thread_scoring_chain_total_witness :
    ((fun _ => (none : Option (String × Int))) (boxesToTxt ["abcd"]) =
      none) ∧
    0 ≤ (threadRun (fun _ => none) (some ["abcd"])).score :=
  ⟨rfl, (thread_scoring_chain_total (fun _ => none) ["abcd"]).2.2.1 rfl⟩

/-! ## Lemmas about the bounded parallel evaluator -/

theorem pyForRemove_kept_length_le (fin : Worker → Bool) :
    (l : List Worker) → (pyForRemove fin l).1.length ≤ l.length
  | [] => by simp [pyForRemove]
  | [w] => by by_cases h : fin w <;> simp [pyForRemove, h]
  | w :: y :: ys => by
    by_cases h : fin w
    · have := pyForRemove_kept_length_le fin ys
      simp only [pyForRemove, h, if_true, List.length_cons]
      omega
    · have := pyForRemove_kept_length_le fin (y :: ys)
      simp only [List.length_cons] at this
      simp only [pyForRemove, h, if_false, Bool.false_eq_true,
        List.length_cons]
      omega

theorem startThreads_length (maxT : Nat) :
    ∀ (imgs : List (Int × Nat)) (threads : List Worker) (nb : Nat),
      threads.length ≤ maxT →
      (startThreads maxT imgs threads nb).2.1.length ≤ maxT := by
  intro imgs
  induction imgs with
  | nil => intro threads nb h; simpa [startThreads] using h
  | cons v rest ih =>
    intro threads nb h
    by_cases hlt : threads.length < maxT
    · simp only [startThreads, hlt, if_true]
      exact ih _ _ (by simp; omega)
    · simpa [startThreads, hlt] using h

theorem ocrStep_threads_le (rc : Nat → Int × Nat) (fin : Worker → Bool)
    (maxT : Nat) (st : OCRState) (h : st.threads.length ≤ maxT) :
    (ocrStep rc fin maxT st).threads.length ≤ maxT := by
  simp only [ocrStep]
  exact startThreads_length maxT st.imgs _ st.nb
    (le_trans (pyForRemove_kept_length_le fin st.threads) h)

theorem ocrTrace_threads_le (rc : Nat → Int × Nat) :
    ∀ (fins : List (Worker → Bool)) (maxT : Nat) (st : OCRState),
      st.threads.length ≤ maxT →
      ∀ st' ∈ ocrTrace rc fins maxT st, st'.threads.length ≤ maxT := by
  intro fins
  induction fins with
  | nil =>
    intro maxT st h st' hst'
    simp [ocrTrace] at hst'
    subst hst'
    exact h
  | cons f fs ih =>
    intro maxT st h st' hst'
    by_cases hd : ocrDone st = true
    · simp [ocrTrace, hd] at hst'
      subst hst'
      exact h
    · simp only [ocrTrace, hd, Bool.false_eq_true, if_false,
        List.mem_cons] at hst'
      rcases hst' with rfl | hst'
      · exact h
      · exact ih maxT _ (ocrStep_threads_le rc f maxT st h) st' hst'

/-- C4.  Throughout the fan-out loop the number of in-flight workers never
exceeds the concurrency bound: every state at which the loop condition is
checked satisfies `threads.length ≤ maxT`; and the fan-in starts no worker
when capacity is exhausted or the backlog is empty. -/
theorem ocr_inflight_bounded
    (rc : Nat → Int × Nat) (fins : List (Worker → Bool)) (maxT : Nat)
    (variants : List (Int × Nat)) :
    (∀ st' ∈ ocrTrace rc fins maxT (ocrInit variants),
      st'.threads.length ≤ maxT) ∧
    (∀ (imgs : List (Int × Nat)) (threads : List Worker) (nb : Nat),
      maxT ≤ threads.length ∨ imgs = [] →
      startThreads maxT imgs threads nb = (imgs, threads, nb)) := by
  constructor
  · exact ocrTrace_threads_le rc fins maxT (ocrInit variants)
      (by simp [ocrInit])
  · intro imgs threads nb h
    cases imgs with
    | nil => simp [startThreads]
    | cons v rest =>
      rcases h with h | h
      · simp [startThreads, Nat.not_lt.mpr h]
      · exact absurd h (by simp)

/-- Witness for C4: with 4 variants and a bound of 2, a state reached after
one polling iteration is in the trace and holds exactly 2 in-flight workers;
and the fan-in at full capacity starts nothing. -/
theorem ocr_inflight_bounded_witness :
    ((ocrStep rcDemo (fun _ => true) 2 (ocrInit varsDemo)) ∈
      ocrTrace rcDemo finsDemo 2 (ocrInit varsDemo)) ∧
    (ocrStep rcDemo (fun _ => true) 2 (ocrInit varsDemo)).threads.length
      ≤ 2 ∧
    startThreads 2 [(0, 5)]
        [{ name := 0, angle := 0, img := 0 },
         { name := 1, angle := 90, img := 1 }] 7 =
      ([(0, 5)],
       [{ name := 0, angle := 0, img := 0 },
        { name := 1, angle := 90, img := 1 }], 7) :=
  ⟨by decide,
   (ocr_inflight_bounded rcDemo finsDemo 2 varsDemo).1 _ (by decide),
   (ocr_inflight_bounded rcDemo finsDemo 2 varsDemo).2 [(0, 5)]
     [{ name := 0, angle := 0, img := 0 },
      { name := 1, angle := 90, img := 1 }] 7 (Or.inl (by decide))⟩

theorem pyForRemove_perm (fin : Worker → Bool) :
    (l : List Worker) →
      l.Perm ((pyForRemove fin l).1 ++ (pyForRemove fin l).2)
  | [] => by simp [pyForRemove]
  | [w] => by by_cases h : fin w <;> simp [pyForRemove, h]
  | w :: y :: ys => by
    by_cases h : fin w
    · have ihp := pyForRemove_perm fin ys
      simp only [pyForRemove, h, if_true]
      exact (List.Perm.swap y w ys).trans
        (((ihp.cons w).cons y).trans (List.perm_middle.symm.cons y))
    · have ihp := pyForRemove_perm fin (y :: ys)
      simp only [pyForRemove, h, if_false, Bool.false_eq_true]
      exact ihp.cons w

theorem startThreads_records (rc : Nat → Int × Nat) (maxT : Nat) :
    ∀ (imgs : List (Int × Nat)) (threads : List Worker) (nb : Nat),
      (startThreads maxT imgs threads nb).2.1.map (workerRecord rc) ++
        (startThreads maxT imgs threads nb).1.map (evalRecord rc) =
      threads.map (workerRecord rc) ++ imgs.map (evalRecord rc) := by
  intro imgs
  induction imgs with
  | nil => intro threads nb; simp [startThreads]
  | cons v rest ih =>
    intro threads nb
    by_cases hlt : threads.length < maxT
    · simp only [startThreads, hlt, if_true]
      rw [ih]
      simp [workerRecord, evalRecord]
    · simp [startThreads, hlt]

theorem perm_append_shuffle {α : Type} (S Rm Km Im Tm : List α)
    (h : Tm.Perm (Km ++ Rm)) :
    (S ++ Rm ++ (Km ++ Im)).Perm (S ++ (Tm ++ Im)) := by
  simp only [List.append_assoc]
  refine List.Perm.append_left S ?_
  have h3 : (Km ++ Rm) ++ Im = Km ++ (Rm ++ Im) := List.append_assoc Km Rm Im
  have h2 : (Tm ++ Im).Perm (Km ++ (Rm ++ Im)) :=
    (List.Perm.append_right Im h).trans (h3 ▸ List.Perm.refl _)
  exact (List.perm_append_comm_assoc Rm Km Im).trans h2.symm

theorem ocrStep_records (rc : Nat → Int × Nat) (fin : Worker → Bool)
    (maxT : Nat) (st : OCRState) :
    (stRecords rc (ocrStep rc fin maxT st)).Perm (stRecords rc st) := by
  simp only [stRecords, ocrStep]
  rw [startThreads_records]
  have hperm :=
    (pyForRemove_perm fin st.threads).map (workerRecord rc)
  rw [List.map_append] at hperm
  exact perm_append_shuffle _ _ _ _ _ hperm

theorem ocrLoop_records (rc : Nat → Int × Nat) :
    ∀ (fins : List (Worker → Bool)) (maxT : Nat) (st st' : OCRState),
      ocrLoop rc fins maxT st = some st' →
      (stRecords rc st').Perm (stRecords rc st) ∧ ocrDone st' = true := by
  intro fins
  induction fins with
  | nil =>
    intro maxT st st' h
    by_cases hd : ocrDone st = true
    · simp only [ocrLoop, hd, if_true, Option.some.injEq] at h
      subst h
      exact ⟨List.Perm.refl _, hd⟩
    · simp [ocrLoop, hd] at h
  | cons f fs ih =>
    intro maxT st st' h
    by_cases hd : ocrDone st = true
    · simp only [ocrLoop, hd, if_true, Option.some.injEq] at h
      subst h
      exact ⟨List.Perm.refl _, hd⟩
    · simp only [ocrLoop, hd, Bool.false_eq_true, if_false] at h
      obtain ⟨hp, hdone⟩ := ih maxT _ st' h
      exact ⟨hp.trans (ocrStep_records rc f maxT st), hdone⟩

theorem insertDesc_perm (e : SEntry) :
    (l : List SEntry) → (insertDesc e l).Perm (e :: l)
  | [] => List.Perm.refl _
  | y :: ys => by
    by_cases h : e.score < y.score
    · simp only [insertDesc, h, if_true]
      exact ((insertDesc_perm e ys).cons y).trans (List.Perm.swap e y ys)
    · simp [insertDesc, h]

theorem sortScores_perm : (l : List SEntry) → (sortScores l).Perm l
  | [] => List.Perm.refl _
  | e :: es =>
    (insertDesc_perm e (sortScores es)).trans ((sortScores_perm es).cons e)

theorem insertDesc_sorted (e : SEntry) :
    ∀ (l : List SEntry),
      l.Pairwise (fun a b => b.score ≤ a.score) →
      (insertDesc e l).Pairwise (fun a b => b.score ≤ a.score) := by
  intro l
  induction l with
  | nil => intro _; simp [insertDesc]
  | cons y ys ih =>
    intro h
    obtain ⟨hy, hys⟩ := List.pairwise_cons.mp h
    by_cases hlt : e.score < y.score
    · simp only [insertDesc, hlt, if_true, List.pairwise_cons]
      refine ⟨?_, ih hys⟩
      intro b hb
      have hb2 := (insertDesc_perm e ys).mem_iff.mp hb
      rcases List.mem_cons.mp hb2 with rfl | hb3
      · exact le_of_lt hlt
      · exact hy b hb3
    · simp only [insertDesc, hlt, if_false, List.pairwise_cons]
      refine ⟨?_, hy, hys⟩
      intro b hb
      rcases List.mem_cons.mp hb with rfl | hb
      · omega
      · exact le_trans (hy b hb) (by omega)

theorem sortScores_sorted :
    ∀ (l : List SEntry),
      (sortScores l).Pairwise (fun a b => b.score ≤ a.score)
  | [] => by simp [sortScores]
  | e :: es => insertDesc_sorted e (sortScores es) (sortScores_sorted es)

/-- The head of the sorted score list is a maximal-score entry. -/
theorem sortScores_head_max (l : List SEntry) (e : SEntry)
    (h : (sortScores l).head? = some e) :
    e ∈ l ∧ ∀ x ∈ l, x.score ≤ e.score := by
  cases hs : sortScores l with
  | nil => rw [hs] at h; simp at h
  | cons a rest =>
    rw [hs] at h
    simp only [List.head?_cons, Option.some.injEq] at h
    subst h
    have hperm := sortScores_perm l
    rw [hs] at hperm
    have hsort := sortScores_sorted l
    rw [hs] at hsort
    obtain ⟨hmax, _⟩ := List.pairwise_cons.mp hsort
    constructor
    · exact hperm.subset (List.mem_cons_self _ _)
    · intro x hx
      rcases List.mem_cons.mp (hperm.symm.subset hx) with rfl | hx'
      · exact le_refl _
      · exact hmax x hx'

/-- C3.  If the fan-out loop completes, the collected scores are exactly the
evaluations of all submitted variants, and the `ocr-done` event carries the
angle, image and boxes of an entry whose score is the maximum of all
computed scores. -/
theorem ocr_emits_max_score
    (rc : Nat → Int × Nat) (fins : List (Worker → Bool)) (maxT : Nat)
    (variants : List (Int × Nat)) (st : OCRState)
    (hloop : ocrLoop rc fins maxT (ocrInit variants) = some st)
    (hne : variants ≠ []) :
    st.scores.Perm (variants.map (evalRecord rc)) ∧
    ∃ e, (sortScores st.scores).head? = some e ∧ e ∈ st.scores ∧
      (∀ x ∈ st.scores, x.score ≤ e.score) ∧
      jobOCRdo rc fins maxT variants = some (e.angle, e.img, e.boxes) := by
  obtain ⟨hperm, hdone⟩ := ocrLoop_records rc fins maxT _ st hloop
  have hpair : st.imgs = [] ∧ st.threads = [] := by
    have := hdone
    simp [ocrDone] at this
    exact ⟨this.1, this.2⟩
  have hscores : st.scores.Perm (variants.map (evalRecord rc)) := by
    have h := hperm
    simp only [stRecords, ocrInit, hpair.1, hpair.2, List.map_nil,
      List.append_nil, List.nil_append] at h
    exact h
  refine ⟨hscores, ?_⟩
  have hne' : st.scores ≠ [] := by
    intro h0
    rw [h0] at hscores
    exact hne (List.map_eq_nil_iff.mp hscores.symm.eq_nil)
  obtain ⟨e, rest, hs⟩ : ∃ e rest, sortScores st.scores = e :: rest := by
    cases hsp : sortScores st.scores with
    | nil =>
      have := sortScores_perm st.scores
      rw [hsp] at this
      exact absurd this.symm.eq_nil hne'
    | cons a r => exact ⟨a, r, rfl⟩
  have hhead : (sortScores st.scores).head? = some e := by rw [hs]; rfl
  obtain ⟨hmem, hmax⟩ := sortScores_head_max st.scores e hhead
  refine ⟨e, hhead, hmem, hmax, ?_⟩
  simp [jobOCRdo, hloop, hhead]

/-- Witness for C3: the spec's example — scores 3, 7, 2, 5 under bound 2 —
emits the score-7 variant (angle 90). -/
theorem ocr_emits_max_score_witness :
    (ocrLoop rcDemo finsDemo 2 (ocrInit varsDemo) = some ocrFinalDemo) ∧
    (varsDemo ≠ []) ∧
    (ocrFinalDemo.scores.Perm (varsDemo.map (evalRecord rcDemo)) ∧
      ∃ e, (sortScores ocrFinalDemo.scores).head? = some e ∧
        e ∈ ocrFinalDemo.scores ∧
        (∀ x ∈ ocrFinalDemo.scores, x.score ≤ e.score) ∧
        jobOCRdo rcDemo finsDemo 2 varsDemo =
          some (e.angle, e.img, e.boxes)) ∧
    jobOCRdo rcDemo finsDemo 2 varsDemo = some (90, 1, 101) :=
  ⟨by decide, by decide,
   ocr_emits_max_score rcDemo finsDemo 2 varsDemo ocrFinalDemo
     (by decide) (by decide),
   by decide⟩
